import Mathlib

/-!
Shallow embedding of `src/generators/typescript/GeneratorUtils.ts`.

Byte buffers (JavaScript `Uint8Array` values) are modelled as `List Nat`;
the `Uint8Array` invariant that every element is below 256 is carried as a
hypothesis where a theorem needs it.  JavaScript numbers appearing in this
module are integral, and are modelled as `Int` (or `Nat` where the source
value is a byte or an unsigned count); the 32-bit coercions that JavaScript
bitwise operators perform are made explicit.  Operations that can throw
return `Except GenError`.
-/

namespace GeneratorUtils

/-- Error kinds thrown by the module.  The source interpolates offending
values into message strings; the constructors carry the same data.
`wrapped` models the try/catch blocks that catch an error and rethrow it
inside a new message. -/
inductive GenError where
  | invalidLength (len : Nat)
  | badBigIntString
  | outOfRange (v : Int)
  | unexpectedBufferSize
  | unexpectedBufferLength
  | wrapped (e : GenError)
  deriving DecidableEq, Repr

/-- JavaScript `ToUint32` of an integral number, as applied by `>>> 0`. -/
def toUint32 (n : Int) : Nat := (n % (4294967296 : Int)).toNat

/-- JavaScript `ToInt32` of an integral number, as applied to the operands
of `<<`, `>>` and `&`. -/
def toInt32 (n : Int) : Int :=
  if n % (4294967296 : Int) < 2147483648 then n % (4294967296 : Int)
  else n % (4294967296 : Int) - 4294967296

/-- JavaScript left shift `a << k`: the operand is coerced to int32 and the
shifted result is again an int32. -/
def jsShl (a : Int) (k : Nat) : Int := toInt32 (toInt32 a * 2 ^ k)

/-- JavaScript sign-propagating right shift `a >> k`; on an int32 this is
floor division by `2 ^ k` (Lean's `/` on `Int` with a positive divisor). -/
def jsShr (a : Int) (k : Nat) : Int := toInt32 a / (2 ^ k : Int)

/-- JavaScript `BigInt(s)` applied to the 16-character string of hexadecimal
digit characters built by `bufferToBigInt`: the string has no `0x` prefix,
so it is parsed as a decimal literal.  It parses only when every character
is a decimal digit; a character `A`-`F` makes `BigInt` throw a SyntaxError. -/
def bigIntOfDigitChars (nibbles : List Nat) : Except GenError Int :=
  if nibbles.all (fun d => d < 10) then
    .ok (nibbles.foldl (fun acc d => acc * 10 + (d : Int)) 0)
  else
    .error .badBigIntString

/-- Transcription of `bufferToBigInt`, returning the result together with the
final content of the caller's array: `input.reverse()` reverses the
`Uint8Array` in place, so whenever the length check passes the caller's
buffer ends up reversed.  For a byte `b < 256`, `b >> 4` is `b / 16` and
`b & 0x0F` is `b % 16`; `Nibble_To_Char_Map` maps those nibbles to the
characters `0`-`9`, `A`-`F` of the string handed to `BigInt`. -/
def bufferToBigIntMut (input : List Nat) : Except GenError Int × List Nat :=
  if input.length ≠ 8 then
    (.error (.invalidLength input.length), input)
  else
    let rev := input.reverse
    let nibbles := rev.foldr (fun b acc => b / 16 :: b % 16 :: acc) []
    (bigIntOfDigitChars nibbles, rev)

/-- Result component of `bufferToBigInt`. -/
def bufferToBigInt (input : List Nat) : Except GenError Int :=
  (bufferToBigIntMut input).1

/-- Big-endian hexadecimal digits of `n` accumulated least-significant
first; the fuel argument bounds the recursion and any fuel of at least the
digit count gives the exact digits. -/
def hexDigitsAux : Nat → Nat → List Nat → List Nat
  | 0, _, acc => acc
  | fuel + 1, n, acc => if n = 0 then acc else hexDigitsAux fuel (n / 16) (n % 16 :: acc)

/-- Hexadecimal digit list (most significant first) of `n`, as
`BigInt.prototype.toString(16)` produces it; `0` prints as the single
digit `0`.  The fuel `n` is at least the number of digits of `n`. -/
def hexDigits (n : Nat) : List Nat :=
  if n = 0 then [0] else hexDigitsAux n n []

/-- `padStart(16, '0')` on a digit string: left-pad with zero digits to a
length of at least 16. -/
def padStart16 (l : List Nat) : List Nat := List.replicate (16 - l.length) 0 ++ l

/-- Transcription of `bigIntToBuffer` for a non-negative input (the only
inputs the module produces): the padded big-endian hex digit string is cut
into consecutive pairs, and `parseInt(hex.slice(j, j + 2), 16)` turns the
pair `(h, l)` into the byte `16 * h + l`. -/
def bigIntToBuffer (input : Nat) : List Nat :=
  let hex := padStart16 (hexDigits input)
  (List.range (hex.length / 2)).map (fun i => 16 * hex.getD (2 * i) 0 + hex.getD (2 * i + 1) 0)

/-- Transcription of `readUint32At`.  An out-of-bounds `Uint8Array` read
yields `undefined`: as an operand of `<<` it coerces to 0, while as the
bare first addend it makes the whole sum NaN, and `NaN >>> 0` is 0.  The
source expression contains no throwing construct, so the function always
returns a value. -/
def readUint32At (bytes : List Nat) (index : Nat) : Except GenError Nat :=
  match bytes[index]? with
  | none => .ok 0
  | some b0 =>
    .ok (toUint32 ((b0 : Int)
      + jsShl (bytes.getD (index + 1) 0) 8
      + jsShl (bytes.getD (index + 2) 0) 16
      + jsShl (bytes.getD (index + 3) 0) 24))

/-- Little-endian byte list of width `w` holding the value `n < 256 ^ w`:
the layout `DataView.setUint8/16/32` with `littleEndian = true` writes into
the fresh `ArrayBuffer` of `uintToBuffer`. -/
def leBytes (n : Nat) (w : Nat) : List Nat :=
  (List.range w).map (fun i => n / 256 ^ i % 256)

/-- Value of a little-endian byte list. -/
def fromLEBytes (l : List Nat) : Nat := l.foldr (fun b acc => b + 256 * acc) 0

/-- Transcription of `uintToBuffer`.  `DataView.setUint8/16/32` first applies
`ToUint8/16/32` (reduction modulo `2 ^ width` for an integral value) and
never throws for a numeric value at offset 0 of a sufficient buffer, so the
catch branch is reached only via the `throw` for an unexpected size, which
the catch rewraps. -/
def uintToBuffer (uintValue : Int) (bufferSize : Nat) : Except GenError (List Nat) :=
  if bufferSize = 1 then
    .ok (leBytes ((uintValue % (256 : Int)).toNat) 1)
  else if bufferSize = 2 then
    .ok (leBytes ((uintValue % (65536 : Int)).toNat) 2)
  else if bufferSize = 4 then
    .ok (leBytes ((uintValue % (4294967296 : Int)).toNat) 4)
  else
    .error (.wrapped .unexpectedBufferSize)

/-- Transcription of `bufferToUint`.  `DataView.getUint8/16/32` with
`littleEndian = true` combines the stored bytes (each below 256) in
little-endian order; the `throw` for an unexpected length is rewrapped by
the catch. -/
def bufferToUint (buffer : List Nat) : Except GenError Nat :=
  if buffer.length = 1 then
    .ok (buffer.getD 0 0)
  else if buffer.length = 2 then
    .ok (buffer.getD 0 0 + 256 * buffer.getD 1 0)
  else if buffer.length = 4 then
    .ok (buffer.getD 0 0 + 256 * buffer.getD 1 0
      + 65536 * buffer.getD 2 0 + 16777216 * buffer.getD 3 0)
  else
    .error (.wrapped .unexpectedBufferLength)

/-- `TypedArray.prototype.set`: overwrite `target[offset + i]` with `src[i]`,
leaving the rest of `target` unchanged (the calls below always satisfy
`offset + src.length ≤ target.length`). -/
def typedArraySet (target src : List Nat) (offset : Nat) : List Nat :=
  target.take offset ++ src ++ target.drop (offset + src.length)

/-- Transcription of `concatTypedArrays`: a fresh zero-filled array of the
combined length receives `array1` at offset 0 and `array2` at offset
`array1.length`; the arguments are only read. -/
def concatTypedArrays (array1 array2 : List Nat) : List Nat :=
  let newArray := List.replicate (array1.length + array2.length) 0
  typedArraySet (typedArraySet newArray array1 0) array2 array1.length

/-- Transcription of `uint8ToInt8`: only `0xFF < input` is rejected, and the
returned value is `input << 24 >> 24`. -/
def uint8ToInt8 (input : Int) : Except GenError Int :=
  if 255 < input then
    .error (.outOfRange input)
  else
    .ok (jsShr (jsShl input 24) 24)

/-- Result type of `compact`: either a native number or the original
limb-pair array. -/
inductive CompactResult where
  | num (n : Nat)
  | pair (p : List Nat)
  deriving DecidableEq, Repr

/-- Transcription of `compact` on a limb-pair array `[low, high]`.  The
product `high * 0x100000000 + low` is exact in a float64 because
`high < 0x00200000` keeps it below `2 ^ 53`. -/
def compact (uint64 : List Nat) : CompactResult :=
  let low := uint64.getD 0 0
  let high := uint64.getD 1 0
  if 2097152 ≤ high then .pair uint64
  else .num (high * 4294967296 + low)

/-- Transcription of `fromUint` for a non-negative integral input.
`(number & 0xFFFFFFFF) >>> 0` is `ToUint32(ToInt32(number))`, and
`(number / 0x100000000) >>> 0` truncates the float quotient — exact for
`number ≤ 2 ^ 53 - 1`, giving `floor(number / 2 ^ 32) mod 2 ^ 32`. -/
def fromUint (number : Nat) : List Nat :=
  [toUint32 (toInt32 number), number / 4294967296 % 4294967296]

/-! Helper lemmas shared by the claim theorems. -/

/-- Every defaulted read from a byte buffer is below 256. -/
theorem getD_lt_256 (bytes : List Nat) (hb : ∀ x ∈ bytes, x < 256) (i : Nat) :
    bytes.getD i 0 < 256 := by
  rcases h : bytes[i]? with _ | x
  · simp [List.getD_eq_getElem?_getD, h]
  · have hx := List.getElem?_mem h
    simp [List.getD_eq_getElem?_getD, h]
    exact hb x hx

/-- Arithmetic core of `readUint32At`: the 32-bit shifted sum of four bytes
equals their little-endian value. -/
theorem toUint32_shifted_bytes (b0 n1 n2 n3 : Nat) (h0 : b0 < 256) (h1 : n1 < 256)
    (h2 : n2 < 256) (h3 : n3 < 256) :
    toUint32 ((b0 : Int) + jsShl n1 8 + jsShl n2 16 + jsShl n3 24)
      = b0 + 256 * n1 + 65536 * n2 + 16777216 * n3 := by
  simp only [jsShl, toInt32, toUint32]
  norm_num
  split_ifs <;> omega

/-- Evaluation of `readUint32At` when the first byte exists. -/
theorem readUint32At_eq_of_getElem (bytes : List Nat) (index b0 : Nat)
    (h0 : bytes[index]? = some b0) (hb : ∀ x ∈ bytes, x < 256) :
    readUint32At bytes index = .ok (b0 + 256 * bytes.getD (index + 1) 0
      + 65536 * bytes.getD (index + 2) 0 + 16777216 * bytes.getD (index + 3) 0) := by
  have h1 := getD_lt_256 bytes hb (index + 1)
  have h2 := getD_lt_256 bytes hb (index + 2)
  have h3 := getD_lt_256 bytes hb (index + 3)
  have hb0 : b0 < 256 := hb b0 (List.getElem?_mem h0)
  simp only [readUint32At, h0]
  rw [toUint32_shifted_bytes _ _ _ _ hb0 h1 h2 h3]

/-- Explicit form of a 1-byte little-endian buffer. -/
theorem leBytes_one (n : Nat) : leBytes n 1 = [n % 256] := by
  simp [leBytes, List.range_succ]

/-- Explicit form of a 2-byte little-endian buffer. -/
theorem leBytes_two (n : Nat) : leBytes n 2 = [n % 256, n / 256 % 256] := by
  norm_num [leBytes, List.range_succ]

/-- Explicit form of a 4-byte little-endian buffer. -/
theorem leBytes_four (n : Nat) :
    leBytes n 4 = [n % 256, n / 256 % 256, n / 65536 % 256, n / 16777216 % 256] := by
  norm_num [leBytes, List.range_succ]

/-- Decoding inverts the little-endian encoding on the supported widths. -/
theorem fromLEBytes_leBytes (w n : Nat) (hw : w = 1 ∨ w = 2 ∨ w = 4)
    (hn : n < 256 ^ w) : fromLEBytes (leBytes n w) = n := by
  rcases hw with rfl | rfl | rfl
  · rw [leBytes_one]; simp [fromLEBytes]; omega
  · rw [leBytes_two]; simp [fromLEBytes]; norm_num at hn; omega
  · rw [leBytes_four]; simp [fromLEBytes]; norm_num at hn; omega

/-- Width of the little-endian encoding. -/
theorem leBytes_length (n w : Nat) : (leBytes n w).length = w := by
  simp [leBytes]

/-- Branch form of `compact` on a two-element limb array. -/
theorem compact_pair (low high : Nat) :
    compact [low, high] = if 2097152 ≤ high then .pair [low, high]
      else .num (high * 4294967296 + low) := rfl

/-- Concatenation writes the two arrays back to back into the fresh buffer. -/
theorem concatTypedArrays_eq_append (a b : List Nat) : concatTypedArrays a b = a ++ b := by
  unfold concatTypedArrays typedArraySet
  simp [List.drop_replicate, List.take_left, List.drop_eq_nil_of_le]

/-! Claim theorems. -/

/-- C1: contrary to the claim that `bufferToBigInt` returns the little-endian
value of its 8-byte input, the hex digit string it builds is handed to
`BigInt` without a `0x` prefix and is parsed as decimal: an input containing
a nibble `A`-`F` makes `BigInt` throw, and `[16,0,0,0,0,0,0,0]`, whose
little-endian value is 16, yields 10. -/
theorem bufferToBigInt_decimal_parse_slip :
    bufferToBigInt [10, 0, 0, 0, 0, 0, 0, 0] = .error .badBigIntString ∧
    bufferToBigInt [16, 0, 0, 0, 0, 0, 0, 0] = .ok 10 ∧ (10 : Int) ≠ 16 :=
  ⟨rfl, rfl, by decide⟩

/-- C2: the round-trip `bigIntToBuffer (bufferToBigInt b)` does not reproduce
the 8-byte input `b = [1,0,0,0,0,0,0,0]`: `bufferToBigInt` reverses before
reading while `bigIntToBuffer` emits big-endian bytes without reversing, so
the round-trip yields the reversed buffer `[0,0,0,0,0,0,0,1]`. -/
theorem bigint_roundtrip_fails :
    bufferToBigInt [1, 0, 0, 0, 0, 0, 0, 0] = .ok 1 ∧
    bigIntToBuffer 1 = [0, 0, 0, 0, 0, 0, 0, 1] ∧
    ([0, 0, 0, 0, 0, 0, 0, 1] : List Nat) ≠ [1, 0, 0, 0, 0, 0, 0, 0] :=
  ⟨rfl, rfl, by decide⟩

/-- C3 counterexample: `bufferToBigInt` mutates its caller-supplied 8-byte
buffer, leaving it reversed after the call. -/
theorem bufferToBigInt_mutates_input :
    (bufferToBigIntMut [1, 2, 3, 4, 5, 6, 7, 8]).2 ≠ [1, 2, 3, 4, 5, 6, 7, 8] := by
  decide

/-- C3 amended: `bufferToBigInt` reverses its argument in place whenever the
length check passes (and leaves it untouched otherwise), while
`concatTypedArrays` only reads its arguments and returns the fresh
concatenation. -/
theorem mutation_footprint (l a b : List Nat) :
    (bufferToBigIntMut l).2 = (if l.length = 8 then l.reverse else l) ∧
    concatTypedArrays a b = a ++ b := by
  refine ⟨?_, concatTypedArrays_eq_append a b⟩
  by_cases h : l.length = 8 <;> simp [bufferToBigIntMut, h]

/-- C4 counterexample: on the out-of-bounds input `bytes = [1]`, `offset = 0`
(where `offset + 4` exceeds the length), `readUint32At` returns the value 1
instead of failing with an index error. -/
theorem readUint32At_oob_returns_value : readUint32At [1] 0 = Except.ok 1 := rfl

/-- C4 amended: when `offset + 4` exceeds the length, `readUint32At` does not
fail: it returns the little-endian combination in which every out-of-bounds
byte reads as 0, and returns 0 outright when `bytes[offset]` itself is out
of bounds. -/
theorem readUint32At_oob_reads_zero (bytes : List Nat) (index : Nat)
    (hb : ∀ x ∈ bytes, x < 256) (hoob : bytes.length < index + 4) :
    readUint32At bytes index = .ok (if index < bytes.length then
      bytes.getD index 0 + 256 * bytes.getD (index + 1) 0
        + 65536 * bytes.getD (index + 2) 0 + 16777216 * bytes.getD (index + 3) 0
      else 0) := by
  by_cases h : index < bytes.length
  · rw [if_pos h]
    have h0 : bytes[index]? = some (bytes.getD index 0) := by
      rw [List.getElem?_eq_getElem h, List.getD_eq_getElem?_getD,
        List.getElem?_eq_getElem h]
      rfl
    exact readUint32At_eq_of_getElem bytes index _ h0 hb
  · have h0 : bytes[index]? = none := by
      rw [List.getElem?_eq_none_iff]
      omega
    rw [if_neg h]
    simp [readUint32At, h0]

/-- C4 amended, witness: `[1, 2]` read at offset 0 yields `1 + 256 * 2`. -/
theorem readUint32At_oob_reads_zero_witness : readUint32At [1, 2] 0 = Except.ok 513 := by
  have h := readUint32At_oob_reads_zero [1, 2] 0 (by decide) (by decide)
  simpa using h

/-- C5 counterexample: the negative input `-1` is outside `[0, 255]` but is
not rejected; `uint8ToInt8` returns `-1` for it. -/
theorem uint8ToInt8_accepts_negative : uint8ToInt8 (-1) = Except.ok (-1) := rfl

/-- C5 amended: `uint8ToInt8` rejects only inputs above 255; every input
`v ≤ 255` (negatives included) yields the sign-extended low byte
`(v + 128) mod 256 - 128`, which on `[0, 255]` is the two's-complement
reinterpretation `v` for `v ≤ 127` and `v - 256` otherwise. -/
theorem uint8ToInt8_amended (v : Int) :
    (255 < v → uint8ToInt8 v = .error (.outOfRange v)) ∧
    (v ≤ 255 → uint8ToInt8 v = .ok ((v + 128) % 256 - 128)) ∧
    (0 ≤ v → v ≤ 255 → uint8ToInt8 v = .ok (if v ≤ 127 then v else v - 256)) := by
  refine ⟨fun h => by rw [uint8ToInt8, if_pos h], fun h => ?_, fun h0 h => ?_⟩
  all_goals
    rw [uint8ToInt8, if_neg (by omega)]
    simp only [jsShr, jsShl, toInt32]
    norm_num
    split_ifs <;> omega

/-- C5 amended, witness: 300 is rejected, `0xFF` maps to `-1` and `0x7F`
maps to 127. -/
theorem uint8ToInt8_amended_witness :
    uint8ToInt8 300 = Except.error (.outOfRange 300) ∧
    uint8ToInt8 255 = Except.ok (-1) ∧
    uint8ToInt8 127 = Except.ok 127 := by
  refine ⟨(uint8ToInt8_amended 300).1 (by norm_num), ?_, ?_⟩
  · have h := (uint8ToInt8_amended 255).2.2 (by norm_num) (by norm_num)
    simpa using h
  · have h := (uint8ToInt8_amended 127).2.2 (by norm_num) (by norm_num)
    simpa using h

/-- C6: for every width in {1, 2, 4} and every value representable in that
width, decoding inverts encoding: `bufferToUint (uintToBuffer v w) = v`. -/
theorem uintBuffer_roundTrip (w v : Nat) (hw : w = 1 ∨ w = 2 ∨ w = 4)
    (hv : v < 2 ^ (8 * w)) :
    Except.bind (uintToBuffer (v : Int) w) bufferToUint = Except.ok v := by
  rcases hw with rfl | rfl | rfl
  · norm_num at hv
    have hm : ((v : Int) % (256 : Int)).toNat = v := by omega
    rw [show uintToBuffer (v : Int) 1 = .ok (leBytes v 1) by rw [uintToBuffer]; norm_num [hm],
      leBytes_one]
    simp [Except.bind, bufferToUint]
    omega
  · norm_num at hv
    have hm : ((v : Int) % (65536 : Int)).toNat = v := by omega
    rw [show uintToBuffer (v : Int) 2 = .ok (leBytes v 2) by rw [uintToBuffer]; norm_num [hm],
      leBytes_two]
    simp [Except.bind, bufferToUint]
    omega
  · norm_num at hv
    have hm : ((v : Int) % (4294967296 : Int)).toNat = v := by omega
    rw [show uintToBuffer (v : Int) 4 = .ok (leBytes v 4) by rw [uintToBuffer]; norm_num [hm],
      leBytes_four]
    simp [Except.bind, bufferToUint]
    omega

/-- C6 witness: the 2-byte value 258 survives the round-trip. -/
theorem uintBuffer_roundTrip_witness :
    Except.bind (uintToBuffer (258 : Int) 2) bufferToUint = Except.ok 258 := by
  have h := uintBuffer_roundTrip 2 258 (by norm_num) (by norm_num)
  simpa using h

/-- C7: with `offset + 4 ≤ length`, `readUint32At` returns the little-endian
combination of the four bytes at the offset, a value below `2 ^ 32`. -/
theorem readUint32At_in_bounds (bytes : List Nat) (index : Nat)
    (hb : ∀ x ∈ bytes, x < 256) (hlen : index + 4 ≤ bytes.length) :
    readUint32At bytes index = .ok (bytes.getD index 0
      + 256 * bytes.getD (index + 1) 0 + 65536 * bytes.getD (index + 2) 0
      + 16777216 * bytes.getD (index + 3) 0) ∧
    bytes.getD index 0 + 256 * bytes.getD (index + 1) 0
      + 65536 * bytes.getD (index + 2) 0
      + 16777216 * bytes.getD (index + 3) 0 < 4294967296 := by
  have h : index < bytes.length := by omega
  have h0 : bytes[index]? = some (bytes.getD index 0) := by
    rw [List.getElem?_eq_getElem h, List.getD_eq_getElem?_getD,
      List.getElem?_eq_getElem h]
    rfl
  refine ⟨readUint32At_eq_of_getElem bytes index _ h0 hb, ?_⟩
  have h1 := getD_lt_256 bytes hb index
  have h2 := getD_lt_256 bytes hb (index + 1)
  have h3 := getD_lt_256 bytes hb (index + 2)
  have h4 := getD_lt_256 bytes hb (index + 3)
  omega

/-- C7 witness: `[1,0,0,0]` at offset 0 reads as 1 and `[255,255,255,255]`
as 4294967295. -/
theorem readUint32At_in_bounds_witness :
    readUint32At [1, 0, 0, 0] 0 = Except.ok 1 ∧
    readUint32At [255, 255, 255, 255] 0 = Except.ok 4294967295 := by
  constructor
  · have h := (readUint32At_in_bounds [1, 0, 0, 0] 0 (by decide) (by decide)).1
    simpa using h
  · have h := (readUint32At_in_bounds [255, 255, 255, 255] 0 (by decide) (by decide)).1
    simpa using h

/-- C8: on a limb pair `[low, high]` of uint32 values, `compact` returns the
number `high * 2 ^ 32 + low` when `high < 0x00200000` and the pair unchanged
otherwise. -/
theorem compact_spec (low high : Nat) (hlow : low < 4294967296)
    (hhigh : high < 4294967296) :
    (high < 2097152 → compact [low, high] = .num (high * 4294967296 + low)) ∧
    (2097152 ≤ high → compact [low, high] = .pair [low, high]) := by
  constructor <;> intro h <;> rw [compact_pair]
  · rw [if_neg (by omega)]
  · rw [if_pos h]

/-- C8 witness: `compact [5, 0] = 5` and `compact [0, 0x00200000]` is the
unchanged pair. -/
theorem compact_spec_witness :
    compact [5, 0] = CompactResult.num 5 ∧
    compact [0, 2097152] = CompactResult.pair [0, 2097152] := by
  constructor
  · have h := (compact_spec 5 0 (by norm_num) (by norm_num)).1 (by norm_num)
    simpa using h
  · exact (compact_spec 0 2097152 (by norm_num) (by norm_num)).2 (by norm_num)

/-- C9: for every value in the safe-integer range, `fromUint` returns exactly
`[v mod 2 ^ 32, floor (v / 2 ^ 32)]`, and `compact` maps that pair back
to `v`. -/
theorem fromUint_spec (v : Nat) (hv : v ≤ 9007199254740991) :
    fromUint v = [v % 4294967296, v / 4294967296] ∧
    compact (fromUint v) = CompactResult.num v := by
  have h1 : toUint32 (toInt32 (v : Int)) = v % 4294967296 := by
    rw [toUint32, toInt32]
    split_ifs <;> omega
  have h2 : v / 4294967296 % 4294967296 = v / 4294967296 := by omega
  have hfu : fromUint v = [v % 4294967296, v / 4294967296] := by
    rw [fromUint, h1, h2]
  refine ⟨hfu, ?_⟩
  rw [hfu, compact_pair]
  rw [if_neg (by omega)]
  have h3 : v / 4294967296 * 4294967296 + v % 4294967296 = v := by omega
  rw [h3]

/-- C9 witness: the largest safe integer `2 ^ 53 - 1` splits into
`[0xFFFFFFFF, 0x1FFFFF]` and compacts back. -/
theorem fromUint_spec_witness :
    fromUint 9007199254740991 = [4294967295, 2097151] ∧
    compact (fromUint 9007199254740991) = CompactResult.num 9007199254740991 := by
  have h := fromUint_spec 9007199254740991 (by norm_num)
  norm_num at h
  exact h

/-- C10: for every integer value and width in {1, 2, 4}, `uintToBuffer`
succeeds (the wrapped error branch is unreachable), returning the width-byte
little-endian encoding of `value mod 2 ^ (8 * width)`. -/
theorem uintToBuffer_total (v : Int) (w : Nat) (hw : w = 1 ∨ w = 2 ∨ w = 4) :
    uintToBuffer v w = .ok (leBytes ((v % ((2 : Int) ^ (8 * w))).toNat) w) ∧
    (leBytes ((v % ((2 : Int) ^ (8 * w))).toNat) w).length = w ∧
    fromLEBytes (leBytes ((v % ((2 : Int) ^ (8 * w))).toNat) w)
      = (v % ((2 : Int) ^ (8 * w))).toNat := by
  rcases hw with rfl | rfl | rfl
  · refine ⟨by rw [uintToBuffer]; norm_num, leBytes_length _ _, ?_⟩
    exact fromLEBytes_leBytes 1 _ (by norm_num) (by norm_num; omega)
  · refine ⟨by rw [uintToBuffer]; norm_num, leBytes_length _ _, ?_⟩
    exact fromLEBytes_leBytes 2 _ (by norm_num) (by norm_num; omega)
  · refine ⟨by rw [uintToBuffer]; norm_num, leBytes_length _ _, ?_⟩
    exact fromLEBytes_leBytes 4 _ (by norm_num) (by norm_num; omega)

/-- C10 witness: the negative value `-1` is not rejected at width 4; it
encodes as `[255, 255, 255, 255]`, the little-endian bytes of
`-1 mod 2 ^ 32`. -/
theorem uintToBuffer_total_witness :
    uintToBuffer (-1) 4 = Except.ok [255, 255, 255, 255] ∧
    fromLEBytes [255, 255, 255, 255] = 4294967295 := by
  have h := uintToBuffer_total (-1) 4 (by norm_num)
  have e : (((-1 : Int) % ((2 : Int) ^ (8 * 4))).toNat) = 4294967295 := by decide
  rw [e, leBytes_four] at h
  norm_num at h
  exact ⟨h.1, h.2⟩

end GeneratorUtils
